import Mathlib

/-!
Verification of the `rag_web` repository: a shallow embedding in Lean 4 of the
crawl → chunk → enrich → store ingestion pipeline (`src/crawl/crawler.py`) and
the query → retrieve → assemble pipeline (`src/utils/rag_utils.py`,
`src/app.py`), together with proofs about the embedded operations.

Python strings are modelled as `String`/`List Char` (a Python `str` is a
sequence of code points, exactly as `String.data`).  External collaborators
(the HTML parser, `urllib`, the vector store, the generation and embedding
backends) enter as function parameters or, where a claim needs their
spec-documented contract, as definitions marked "Modelled from the spec".
-/

set_option maxRecDepth 8000

namespace Rag

/-! ## Chunker (`chunk_text`, src/crawl/crawler.py lines 41-69) -/

/-- The whitespace predicate of Python's `str.strip()`, restricted to the
ASCII whitespace characters (the only ones the embedded texts use). -/
def isPySpace (c : Char) : Bool :=
  c = ' ' || c = '\t' || c = '\n' || c = '\x0b' || c = '\x0c' || c = '\r'

/-- Python `str.strip()`: drop whitespace from both ends. -/
def pyStrip (l : List Char) : List Char :=
  ((l.dropWhile isPySpace).reverse.dropWhile isPySpace).reverse

/-- Python `str.rfind(pat)` on a successful search: the largest index `i`
such that `pat` occurs in `l` starting at `i` (`none` when absent). -/
def rfindSub (pat l : List Char) : Option Nat :=
  ((List.range (l.length + 1)).filter (fun i => pat.isPrefixOf (l.drop i))).getLast?

/-- The sentence-break arm of `chunk_text`'s cut choice: `elif ". " in chunk:
last_period = chunk.rfind(". "); if last_period > chunk_size * 0.3: end =
start + last_period + 1` (else the hard boundary `chunk_size`).
`last_period > chunk_size * 0.3` is read exactly as the rational comparison
`10 * last_period > 3 * chunk_size`. -/
def sentenceCut (size : Nat) (window : List Char) : Nat :=
  match rfindSub ['.', ' '] window with
  | some lp => if 3 * size < 10 * lp then lp + 1 else size
  | none => size

/-- The cut position chosen for a full window (`chunk = text[start:end]` with
`end - start = chunk_size`): prefer the last `"\n\n"` past 30% of the window,
else the sentence-break rule, else the hard boundary. -/
def chunkCut (size : Nat) (window : List Char) : Nat :=
  match rfindSub ['\n', '\n'] window with
  | some pb => if 3 * size < 10 * pb then pb + 2 else sentenceCut size window
  | none => sentenceCut size window

/-- The loop of `chunk_text`, on the suffix of the text that starts at the
current scan position `start`; `fuel` bounds the number of iterations (the
Python loop has no such bound — fuel-insensitivity is proved separately as
the termination claim). -/
def chunkTextAux (size : Nat) : Nat → List Char → List (List Char)
  | 0, _ => []
  | fuel + 1, rest =>
    if rest.isEmpty then []
    else if rest.length ≤ size then [pyStrip rest]
    else
      let cut := chunkCut size (rest.take size)
      let c := pyStrip (rest.take cut)
      let tail := chunkTextAux size fuel (rest.drop cut)
      if c.isEmpty then tail else c :: tail

/-- Python `chunk_text(text, chunk_size=1500)`: split text into chunks, respecting
paragraphs.  `text.length + 1` units of fuel are enough for any
`chunk_size ≥ 1` (proved below). -/
def chunk_text (text : String) (size : Nat := 1500) : List String :=
  (chunkTextAux size (text.length + 1) text.data).map String.mk

example : chunk_text "abcdef. ghij" 100 = ["abcdef. ghij"] := by decide
example : chunk_text "aaaa. bbbb" 8 = ["aaaa.", "bbbb"] := by decide
example : chunk_text "ab\n\ncdefg" 6 = ["ab", "cdefg"] := by decide
example : chunk_text "   " 5 = [""] := by decide

/-! ### Chunker lemmas -/

theorem rfindSub_bound {pat l : List Char} {i : Nat} (h : rfindSub pat l = some i) :
    i + pat.length ≤ l.length := by
  have hmem := List.mem_of_getLast?_eq_some h
  rw [List.mem_filter] at hmem
  obtain ⟨hrange, hpref⟩ := hmem
  have hp : pat <+: l.drop i := by simpa using hpref
  have hlen := hp.length_le
  rw [List.length_drop] at hlen
  have : i < l.length + 1 := by simpa using List.mem_range.mp hrange
  omega

theorem chunkCut_le {size : Nat} {w : List Char} (hw : w.length ≤ size) :
    chunkCut size w ≤ size := by
  unfold chunkCut sentenceCut
  split
  · rename_i pb hpb
    have hb := rfindSub_bound hpb
    simp only [List.length_cons, List.length_nil] at hb
    split
    · omega
    · split
      · rename_i lp hlp
        have hl := rfindSub_bound hlp
        simp only [List.length_cons, List.length_nil] at hl
        split <;> omega
      · omega
  · split
    · rename_i lp hlp
      have hl := rfindSub_bound hlp
      simp only [List.length_cons, List.length_nil] at hl
      split <;> omega
    · omega

theorem chunkCut_pos {size : Nat} (hs : 1 ≤ size) (w : List Char) :
    1 ≤ chunkCut size w := by
  unfold chunkCut sentenceCut
  split
  · split
    · omega
    · split
      · split <;> omega
      · omega
  · split
    · split <;> omega
    · omega

theorem length_pyStrip_le (l : List Char) : (pyStrip l).length ≤ l.length := by
  unfold pyStrip
  have h1 := (List.dropWhile_suffix (l := l) isPySpace).length_le
  have h2 := (List.dropWhile_suffix (l := (l.dropWhile isPySpace).reverse)
    isPySpace).length_le
  simp only [List.length_reverse] at *
  omega

theorem pyStrip_within (l : List Char) : pyStrip l <:+: l := by
  unfold pyStrip
  have h1 : l.dropWhile isPySpace <:+ l := List.dropWhile_suffix isPySpace
  have h3 : ((l.dropWhile isPySpace).reverse.dropWhile isPySpace).reverse <+:
      l.dropWhile isPySpace := by
    rw [← List.reverse_suffix]
    simpa using List.dropWhile_suffix (l := (l.dropWhile isPySpace).reverse) isPySpace
  exact h3.isInfix.trans h1.isInfix

theorem filter_dropWhile_not (l : List Char) :
    (l.dropWhile isPySpace).filter (fun c => !isPySpace c) =
      l.filter (fun c => !isPySpace c) := by
  induction l with
  | nil => rfl
  | cons c t ih =>
    by_cases h : isPySpace c
    · rw [List.dropWhile_cons_of_pos h, ih, List.filter_cons]
      simp [h]
    · rw [List.dropWhile_cons_of_neg h]

theorem filter_pyStrip (l : List Char) :
    (pyStrip l).filter (fun c => !isPySpace c) = l.filter (fun c => !isPySpace c) := by
  unfold pyStrip
  rw [List.filter_reverse, filter_dropWhile_not, List.filter_reverse,
    List.reverse_reverse, filter_dropWhile_not]

theorem chunkTextAux_succ (size fuel : Nat) (rest : List Char) :
    chunkTextAux size (fuel + 1) rest =
      if rest.isEmpty then []
      else if rest.length ≤ size then [pyStrip rest]
      else if (pyStrip (rest.take (chunkCut size (rest.take size)))).isEmpty then
        chunkTextAux size fuel (rest.drop (chunkCut size (rest.take size)))
      else pyStrip (rest.take (chunkCut size (rest.take size))) ::
        chunkTextAux size fuel (rest.drop (chunkCut size (rest.take size))) := rfl

theorem chunkTextAux_length_le (size : Nat) :
    ∀ (fuel : Nat) (rest : List Char), ∀ c ∈ chunkTextAux size fuel rest,
      c.length ≤ size := by
  intro fuel
  induction fuel with
  | zero => intro rest c hc; simp [chunkTextAux] at hc
  | succ n ih =>
    intro rest c hc
    rw [chunkTextAux_succ] at hc
    by_cases h1 : rest.isEmpty
    · simp [h1] at hc
    · rw [if_neg h1] at hc
      by_cases h2 : rest.length ≤ size
      · rw [if_pos h2] at hc
        rcases List.mem_singleton.mp hc with rfl
        exact le_trans (length_pyStrip_le rest) h2
      · rw [if_neg h2] at hc
        have hcle : chunkCut size (rest.take size) ≤ size :=
          chunkCut_le (List.length_take_le size rest)
        by_cases h3 : (pyStrip (rest.take (chunkCut size (rest.take size)))).isEmpty
        · rw [if_pos h3] at hc
          exact ih _ c hc
        · rw [if_neg h3] at hc
          rcases List.mem_cons.mp hc with rfl | hmem
          · exact le_trans (le_trans (length_pyStrip_le _)
              (List.length_take_le _ rest)) hcle
          · exact ih _ c hmem

/-- C6: every chunk produced by `chunk_text` — not just the non-final ones —
has length at most `maxSize` (every chosen cut point lies inside the
`maxSize`-character window, and stripping only shortens). -/
theorem chunk_text_size_bound (text : String) (size : Nat) (_hs : 1 ≤ size) :
    ∀ c ∈ chunk_text text size, c.length ≤ size := by
  intro c hc
  unfold chunk_text at hc
  rcases List.mem_map.mp hc with ⟨l, hl, rfl⟩
  simpa [String.length] using chunkTextAux_length_le size _ _ l hl

/-- C6 witness. -/
theorem chunk_text_size_bound_witness :
    1 ≤ 8 ∧ "aaaa." ∈ chunk_text "aaaa. bbbb" 8 ∧ ("aaaa." : String).length ≤ 8 :=
  ⟨by decide, by decide,
    chunk_text_size_bound "aaaa. bbbb" 8 (by decide) "aaaa." (by decide)⟩

/-- C10: the chunking loop always terminates when `chunk_size ≥ 1`: every
chosen cut point is at least one character past the window start, so the
result is independent of the fuel bound once the fuel exceeds the text
length (the Python loop performs exactly that computation with no bound). -/
theorem chunk_text_terminates (size : Nat) (hs : 1 ≤ size) :
    (∀ w : List Char, 1 ≤ chunkCut size w) ∧
    ∀ (f₁ f₂ : Nat) (rest : List Char), rest.length < f₁ → rest.length < f₂ →
      chunkTextAux size f₁ rest = chunkTextAux size f₂ rest := by
  refine ⟨chunkCut_pos hs, ?_⟩
  intro f₁
  induction f₁ with
  | zero => intro f₂ rest h1; omega
  | succ a ih =>
    intro f₂ rest h1 h2
    match f₂, h2 with
    | b + 1, h2 =>
      show chunkTextAux size (a + 1) rest = chunkTextAux size (b + 1) rest
      rw [chunkTextAux_succ, chunkTextAux_succ]
      by_cases he : rest.isEmpty
      · rw [if_pos he, if_pos he]
      · rw [if_neg he, if_neg he]
        by_cases h2' : rest.length ≤ size
        · rw [if_pos h2', if_pos h2']
        · rw [if_neg h2', if_neg h2']
          have hpos : 1 ≤ chunkCut size (rest.take size) := chunkCut_pos hs _
          have hlen : (rest.drop (chunkCut size (rest.take size))).length < a := by
            rw [List.length_drop]; omega
          have hlenb : (rest.drop (chunkCut size (rest.take size))).length < b := by
            rw [List.length_drop]; omega
          rw [ih b _ hlen hlenb]

/-- C10 witness. -/
theorem chunk_text_terminates_witness :
    1 ≤ chunkCut 3 "ab. cd".data ∧
      chunkTextAux 3 7 "ab. cd".data = chunkTextAux 3 9 "ab. cd".data :=
  ⟨(chunk_text_terminates 3 (by decide)).1 _,
    (chunk_text_terminates 3 (by decide)).2 7 9 _ (by decide) (by decide)⟩

theorem chunkTextAux_flatten_filter (size : Nat) (hs : 1 ≤ size) :
    ∀ (fuel : Nat) (rest : List Char), rest.length < fuel →
      ((chunkTextAux size fuel rest).flatten).filter (fun c => !isPySpace c) =
        rest.filter (fun c => !isPySpace c) := by
  intro fuel
  induction fuel with
  | zero => intro rest h; omega
  | succ n ih =>
    intro rest hlt
    rw [chunkTextAux_succ]
    by_cases he : rest.isEmpty
    · rw [if_pos he]
      rw [List.isEmpty_iff] at he
      simp [he]
    · rw [if_neg he]
      by_cases h2 : rest.length ≤ size
      · rw [if_pos h2]
        simp [filter_pyStrip]
      · rw [if_neg h2]
        have hpos : 1 ≤ chunkCut size (rest.take size) := chunkCut_pos hs _
        have hdrop : (rest.drop (chunkCut size (rest.take size))).length < n := by
          rw [List.length_drop]; omega
        have hsplit : rest.filter (fun c => !isPySpace c) =
            (rest.take (chunkCut size (rest.take size))).filter (fun c => !isPySpace c) ++
              (rest.drop (chunkCut size (rest.take size))).filter (fun c => !isPySpace c) := by
          rw [← List.filter_append, List.take_append_drop]
        by_cases h3 : (pyStrip (rest.take (chunkCut size (rest.take size)))).isEmpty
        · rw [if_pos h3, ih _ hdrop, hsplit]
          rw [List.isEmpty_iff] at h3
          have hnil : (rest.take (chunkCut size (rest.take size))).filter
              (fun c => !isPySpace c) = [] := by
            rw [← filter_pyStrip, h3, List.filter_nil]
          rw [hnil, List.nil_append]
        · rw [if_neg h3]
          rw [List.flatten_cons, List.filter_append, filter_pyStrip, ih _ hdrop, hsplit]

/-- C7: concatenating the chunks of `chunk_text` reconstructs the input text
up to whitespace trimming at chunk boundaries: the sequence of
non-whitespace characters is preserved exactly (nothing lost, duplicated or
reordered). -/
theorem chunk_text_coverage (text : String) (size : Nat) (hs : 1 ≤ size) :
    (((chunk_text text size).map String.data).flatten).filter (fun c => !isPySpace c) =
      text.data.filter (fun c => !isPySpace c) := by
  unfold chunk_text
  rw [List.map_map]
  have hmm : (String.data ∘ String.mk) = id := rfl
  rw [hmm, List.map_id]
  exact chunkTextAux_flatten_filter size hs _ _ (Nat.lt_succ_self _)

/-- C7 witness. -/
theorem chunk_text_coverage_witness :
    (((chunk_text " aaaa. bbbb " 8).map String.data).flatten).filter
        (fun c => !isPySpace c) =
      " aaaa. bbbb ".data.filter (fun c => !isPySpace c) :=
  chunk_text_coverage " aaaa. bbbb " 8 (by decide)

/-! ## Substring occurrences and Python `str.replace(pat, "")`

Used by the query-path post-processing (src/utils/rag_utils.py lines
134-151). -/

/-- Number of positions at which `pat` occurs in `l` (an occurrence at
position `i` means `pat` is a prefix of `l.drop i`). -/
def countOcc (pat : List Char) : List Char → Nat
  | [] => 0
  | c :: t => (if pat.isPrefixOf (c :: t) then 1 else 0) + countOcc pat t

theorem countOcc_cons (pat : List Char) (c : Char) (t : List Char) :
    countOcc pat (c :: t) =
      (if pat.isPrefixOf (c :: t) then 1 else 0) + countOcc pat t := rfl

/-- Python `s.replace(pat, "")` for non-empty `pat`: scan left to right,
deleting each (non-overlapping) occurrence of `pat`; `fuel` bounds the scan
(`s.length` always suffices). -/
def removeAllAux (pat : List Char) : Nat → List Char → List Char
  | 0, s => s
  | fuel + 1, s =>
    match s with
    | [] => []
    | c :: t =>
      if pat.isPrefixOf (c :: t) then removeAllAux pat fuel ((c :: t).drop pat.length)
      else c :: removeAllAux pat fuel t

/-- Python `s.replace(pat, "")` at the `String` level. -/
def pyRemoveAll (pat s : String) : String :=
  String.mk (removeAllAux pat.data s.data.length s.data)

/-- Python `s.strip()` at the `String` level. -/
def pyStripS (s : String) : String := String.mk (pyStrip s.data)

example : pyRemoveAll "ab" "xabyabab" = "xy" := by decide
example : pyRemoveAll "ab" "aabb" = "ab" := by decide

theorem countOcc_eq_zero_of_short {pat l : List Char} (h : l.length < pat.length) :
    countOcc pat l = 0 := by
  induction l with
  | nil => rfl
  | cons c t ih =>
    rw [countOcc_cons]
    have hnp : ¬ pat.isPrefixOf (c :: t) = true := by
      rw [ List.isPrefixOf_iff_prefix]
      intro hp
      have := hp.length_le
      simp at this h
      omega
    rw [if_neg hnp, ih (by simp at h ⊢; omega)]

theorem countOcc_self {pat : List Char} (hp : pat ≠ []) : countOcc pat pat = 1 := by
  match pat, hp with
  | c :: t, _ =>
    rw [countOcc_cons, if_pos (by rw [ List.isPrefixOf_iff_prefix]),
      countOcc_eq_zero_of_short (by simp)]

theorem countOcc_eq_zero_iff {pat : List Char} (hp : pat ≠ []) (l : List Char) :
    countOcc pat l = 0 ↔ ¬ pat <:+: l := by
  induction l with
  | nil =>
    have hni : ¬ pat <:+: ([] : List Char) := by
      intro hinf
      have hl := hinf.length_le
      simp only [List.length_nil, Nat.le_zero] at hl
      exact hp (List.eq_nil_of_length_eq_zero hl)
    simp [countOcc, hni]
  | cons c t ih =>
    rw [countOcc_cons, List.infix_cons_iff]
    constructor
    · intro h0 habs
      have h1 : ¬ pat.isPrefixOf (c :: t) = true := by
        intro hb
        rw [if_pos hb] at h0
        omega
      have h2 : countOcc pat t = 0 := by
        rw [if_neg h1] at h0
        omega
      rcases habs with hpre | hinf
      · exact h1 ( List.isPrefixOf_iff_prefix.mpr hpre)
      · exact (ih.mp h2) hinf
    · intro hnot
      push_neg at hnot
      rw [if_neg (by rw [ List.isPrefixOf_iff_prefix]; exact hnot.1), ih.mpr hnot.2]

theorem countOcc_eq_zero_of_within {pat y x : List Char} (hp : pat ≠ [])
    (hyx : y <:+: x) (hx : countOcc pat x = 0) : countOcc pat y = 0 :=
  (countOcc_eq_zero_iff hp y).mpr
    (fun hin => (countOcc_eq_zero_iff hp x).mp hx (hin.trans hyx))

theorem prefix_of_prefix_append {pat x y : List Char} (h : pat <+: x ++ y)
    (hl : pat.length ≤ x.length) : pat <+: x := by
  obtain ⟨t, ht⟩ := h
  have h1 : (x ++ y).take pat.length = pat := by
    rw [← ht]
    exact List.take_left' rfl
  have h2 : (x ++ y).take pat.length = x.take pat.length :=
    List.take_append_of_le_length hl
  rw [h1] at h2
  rw [h2]
  exact List.take_prefix pat.length x

theorem countOcc_append {pat A B : List Char}
    (h : ∀ p, p < A.length → pat <+: (A ++ B).drop p → pat <+: A.drop p) :
    countOcc pat (A ++ B) = countOcc pat A + countOcc pat B := by
  induction A with
  | nil => simp [countOcc]
  | cons a A ih =>
    rw [List.cons_append, countOcc_cons, countOcc_cons (t := A)]
    have hiff : pat.isPrefixOf (a :: (A ++ B)) = pat.isPrefixOf (a :: A) := by
      rw [Bool.eq_iff_iff, List.isPrefixOf_iff_prefix, List.isPrefixOf_iff_prefix]
      constructor
      · intro hc
        simpa using h 0 (by simp) (by simpa using hc)
      · intro hb
        simpa using hb.trans (List.prefix_append (a :: A) B)
    have h' : ∀ p, p < A.length → pat <+: (A ++ B).drop p → pat <+: A.drop p := by
      intro p hp hpre
      have := h (p + 1) (by simp; omega)
        (by simpa [List.drop_succ_cons] using hpre)
      simpa [List.drop_succ_cons] using this
    rw [hiff, ih h']
    omega

/-- No occurrence of `pat` can straddle the boundary of `P ++ R` when the
first character of `R` does not occur in `pat`. -/
theorem prefix_in_left_of_not_mem {pat P R : List Char} {p : Nat}
    (hpre : pat <+: (P ++ R).drop p) (hplt : p < P.length)
    (hne : R ≠ []) (hhead : ∀ c, R.head? = some c → c ∉ pat) :
    pat <+: P.drop p := by
  rw [List.drop_append_of_le_length (Nat.le_of_lt hplt)] at hpre
  by_cases hfit : pat.length ≤ (P.drop p).length
  · exact prefix_of_prefix_append hpre hfit
  · exfalso
    push_neg at hfit
    obtain ⟨t, ht⟩ := hpre
    have hdropped := congrArg (List.drop (P.drop p).length) ht.symm
    rw [List.drop_left,
      List.drop_append_of_le_length (Nat.le_of_lt hfit)] at hdropped
    rcases hR : R with _ | ⟨r, rs⟩
    · exact hne hR
    · subst hR
      rcases hd : pat.drop (P.drop p).length with _ | ⟨d, ds⟩
      · have hlen := congrArg List.length hd
        simp only [List.length_drop, List.length_nil] at hlen
        rw [List.length_drop] at hfit
        omega
      · rw [hd] at hdropped
        simp only [List.cons_append, List.cons.injEq] at hdropped
        have hdm : d ∈ pat := (List.drop_sublist _ pat).mem (hd ▸ List.mem_cons_self d ds)
        exact hhead r rfl (hdropped.1 ▸ hdm)

/-- A block `P ++ "\n\n" ++ pat` (with `"\n\n"` the two-character pair backslash-n,
written twice, exactly as the Python source's `"\\n\\n"` separator) contains
exactly one occurrence of `pat` provided `P` contains none, `pat` contains no
backslash, and `pat` starts with neither a backslash nor `n`. -/
theorem countOcc_block {pat P : List Char} (hp : pat ≠ [])
    (h1 : pat.head? ≠ some '\\') (h2 : pat.head? ≠ some 'n')
    (hbs : '\\' ∉ pat) (hP : countOcc pat P = 0) :
    countOcc pat (P ++ ('\\' :: 'n' :: '\\' :: 'n' :: pat)) = 1 := by
  rcases hpat : pat with _ | ⟨c, pt⟩
  · exact absurd hpat hp
  subst hpat
  have hc1 : c ≠ '\\' := by intro h; exact h1 (by rw [h]; rfl)
  have hc2 : c ≠ 'n' := by intro h; exact h2 (by rw [h]; rfl)
  have hsplit1 : countOcc (c :: pt) (P ++ ('\\' :: 'n' :: '\\' :: 'n' :: (c :: pt))) =
      countOcc (c :: pt) P +
        countOcc (c :: pt) ('\\' :: 'n' :: '\\' :: 'n' :: (c :: pt)) := by
    apply countOcc_append
    intro p hplt hpre
    exact prefix_in_left_of_not_mem hpre hplt (by simp)
      (fun d hd => by
        simp only [List.head?_cons, Option.some.injEq] at hd
        rw [← hd]; exact hbs)
  have hsep : ('\\' :: 'n' :: '\\' :: 'n' :: (c :: pt)) =
      ['\\', 'n', '\\', 'n'] ++ (c :: pt) := rfl
  have hsplit2 : countOcc (c :: pt) (['\\', 'n', '\\', 'n'] ++ (c :: pt)) =
      countOcc (c :: pt) ['\\', 'n', '\\', 'n'] + countOcc (c :: pt) (c :: pt) := by
    apply countOcc_append
    intro p hplt hpre
    exfalso
    simp only [List.length_cons, List.length_nil] at hplt
    rcases p with _ | _ | _ | _ | p
    · simp only [List.cons_append, List.drop_zero] at hpre
      rcases hpre with ⟨t, ht⟩
      simp only [List.cons_append, List.cons.injEq] at ht
      exact hc1 ht.1
    · simp only [List.cons_append, List.drop_succ_cons, List.drop_zero] at hpre
      rcases hpre with ⟨t, ht⟩
      simp only [List.cons_append, List.cons.injEq] at ht
      exact hc2 ht.1
    · simp only [List.cons_append, List.drop_succ_cons, List.drop_zero] at hpre
      rcases hpre with ⟨t, ht⟩
      simp only [List.cons_append, List.cons.injEq] at ht
      exact hc1 ht.1
    · simp only [List.cons_append, List.drop_succ_cons, List.drop_zero] at hpre
      rcases hpre with ⟨t, ht⟩
      simp only [List.cons_append, List.cons.injEq] at ht
      exact hc2 ht.1
    · omega
  have hsepz : countOcc (c :: pt) ['\\', 'n', '\\', 'n'] = 0 := by
    have hnp : ∀ d (ds : List Char), d ≠ c →
        (c :: pt).isPrefixOf (d :: ds) = false := by
      intro d ds hd
      rw [Bool.eq_false_iff]
      intro hb
      rcases List.isPrefixOf_iff_prefix.mp hb with ⟨t, ht⟩
      simp only [List.cons_append, List.cons.injEq] at ht
      exact hd ht.1.symm
    rw [show (['\\', 'n', '\\', 'n'] : List Char) =
        '\\' :: 'n' :: '\\' :: 'n' :: [] from rfl]
    rw [countOcc_cons, countOcc_cons, countOcc_cons, countOcc_cons]
    rw [hnp '\\' _ (fun h => hc1 h.symm), hnp 'n' _ (fun h => hc2 h.symm),
      hnp '\\' _ (fun h => hc1 h.symm), hnp 'n' _ (fun h => hc2 h.symm)]
    rfl
  rw [hsplit1, hP, hsep, hsplit2, hsepz, countOcc_self (by simp)]


/-! ## Query assembler (`query_rag_system`, src/utils/rag_utils.py lines 64-164)

The vector store, embedding backend and generation backend are external
collaborators; retrieval enters as the list of records returned by
`collection.query` and generation as a function `gen : String → String`.
The Python file writes its prompt/answer separators as `"\\n"`/`"\\n\\n"`,
i.e. the literal two-character sequence backslash-`n` — the embedding keeps
those byte-for-byte. -/

/-- A chat turn as passed from the display layer (`st.session_state.messages`
entries restricted to role and content). -/
structure ChatTurn where
  role : String
  content : String
deriving DecidableEq

/-- One record as returned by `collection.query` (a document plus the
metadata keys the query path reads; `Option` mirrors `metadata.get`). -/
structure RetrievedDoc where
  document : String
  title : Option String
  url : Option String
  summary : Option String
deriving DecidableEq

/-- An entry of the `sources` result list. -/
structure Source where
  title : String
  url : String
  summary : String
deriving DecidableEq

/-- The observable outcome of `query_rag_system`: the returned dictionary
plus whether the generation service was invoked on the way. -/
structure QueryOutcome where
  answer : String
  sources : List Source
  genInvoked : Bool
deriving DecidableEq

/-- An apostrophe, spliced into string constants. -/
def squote : String := String.singleton (Char.ofNat 39)

/-- A newline character, used between the lines of the system prompt. -/
def nlc : String := "\n"

/-- The `system_prompt` constant (src/utils/rag_utils.py lines 93-113),
byte-for-byte. -/
def systemPrompt : String :=
  "คุณคือผู้ช่วย AI อัจฉริยะของ Agnos Health ที่เชี่ยวชาญด้านการให้ข้อมูลสุขภาพจากกระทู้ถามตอบทางการแพทย์" ++ nlc ++
  "คุณได้รับคำถามจากผู้ใช้ และมีข้อมูลอ้างอิงจากกระทู้ที่แพทย์ได้ตอบไว้ในฟอรั่มของ Agnos Health" ++ nlc ++
  "" ++ nlc ++
  "**คำแนะนำสำคัญ:**" ++ nlc ++
  "1.  **ตอบเป็นภาษาไทยเสมอ** ตามภาษาของคำถามของผู้ใช้" ++ nlc ++
  "2.  **พิจารณาประวัติการสนทนาก่อนหน้า (ถ้ามี) เพื่อทำความเข้าใจบริบทของคำถามปัจจุบัน**" ++ nlc ++
  "3.  **ใช้ข้อมูลจาก \"เนื้อหาอ้างอิง\" ที่ให้มาเท่านั้น** ในการตอบคำถามปัจจุบัน ห้ามใช้ความรู้ส่วนตัวหรือข้อมูลจากภายนอกโดยเด็ดขาด" ++ nlc ++
  "4.  **สวมบทบาทเป็นผู้ช่วยที่ให้ข้อมูล (ไม่ใช่แพทย์):** สรุปคำตอบจากแพทย์ในเนื้อหาอ้างอิงอย่างถูกต้องและเข้าใจง่าย" ++ nlc ++
  "5.  **หากมีหลายคำตอบจากแพทย์ที่เกี่ยวข้อง:** พยายามสังเคราะห์ข้อมูลเหล่านั้นเพื่อให้คำตอบที่ครอบคลุมที่สุด ถ้าคำตอบขัดแย้งกัน ให้ระบุว่ามีความเห็นที่แตกต่างกันในเนื้อหาอ้างอิง" ++ nlc ++
  "6.  **เน้นความแม่นยำ:** ตอบให้ตรงประเด็น กระชับ และเป็นข้อเท็จจริงตามเนื้อหาอ้างอิง" ++ nlc ++
  "7.  **ถ้าข้อมูลไม่เพียงพอ:** หากเนื้อหาอ้างอิงไม่เกี่ยวข้องกับคำถามปัจจุบัน หรือไม่มีข้อมูลเพียงพอที่จะตอบได้อย่างมั่นใจ ให้ตอบว่า \"ขออภัยค่ะ/ครับ ดิฉันไม่พบข้อมูลที่เกี่ยวข้องโดยตรงกับคำถามของคุณในฐานข้อมูล ณ ขณะนี้\" หรือ \"ข้อมูลที่มีอยู่อาจไม่เพียงพอที่จะให้คำตอบที่ชัดเจนสำหรับคำถามนี้ค่ะ/ครับ\"" ++ nlc ++
  "8.  **ความปลอดภัยและการปฏิเสธความรับผิดชอบ:**" ++ nlc ++
  "    *   **ทุกครั้งที่ตอบคำถาม** ให้ปิดท้ายคำตอบด้วยข้อความนี้เสมอ: \"ข้อมูลนี้เป็นเพียงข้อมูลเบื้องต้นที่สรุปจากกระทู้ถามตอบในฟอรั่ม Agnos Health และไม่สามารถใช้แทนคำแนะนำ การวินิจฉัย หรือการรักษาจากแพทย์ผู้เชี่ยวชาญได้ หากคุณมีข้อกังวลด้านสุขภาพ กรุณาปรึกษาแพทย์โดยตรงนะคะ/ครับ\"" ++ nlc ++
  "    *   ห้ามให้คำแนะนำทางการแพทย์ส่วนบุคคล ห้ามวินิจฉัยโรค หรือแนะนำการรักษาที่เฉพาะเจาะจง" ++ nlc ++
  "9.  **อย่าอ้างอิงถึง \"เนื้อหาอ้างอิง\" หรือ \"ประวัติการสนทนา\" โดยตรง** ในคำตอบของคุณ แต่ให้ตอบเหมือนคุณมีความรู้นั้นอยู่แล้ว โดยไม่มีคำว่า " ++ squote ++ "ประวัติการสนทนา" ++ squote ++ "" ++ nlc ++
  "" ++ nlc ++
  "**รูปแบบการตอบ:**" ++ nlc ++
  "[คำตอบที่สรุปจากเนื้อหาอ้างอิง โดยพิจารณาบริบทจากประวัติการสนทนา (ถ้ามี)]" ++ nlc ++
  "" ++ nlc ++
  "ข้อมูลนี้เป็นเพียงข้อมูลเบื้องต้นที่สรุปจากกระทู้ถามตอบในฟอรั่ม Agnos Health และไม่สามารถใช้แทนคำแนะนำ การวินิจฉัย หรือการรักษาจากแพทย์ผู้เชี่ยวชาญได้ หากคุณมีข้อกังวลด้านสุขภาพ กรุณาปรึกษาแพทย์โดยตรงนะคะ/ครับ" ++ nlc ++
  ""

/-- The `disclaimer_text` constant (line 136). -/
def disclaimer : String :=
  "ข้อมูลนี้เป็นเพียงข้อมูลเบื้องต้นที่สรุปจากกระทู้ถามตอบในฟอรั่ม Agnos Health และไม่สามารถใช้แทนคำแนะนำ การวินิจฉัย หรือการรักษาจากแพทย์ผู้เชี่ยวชาญได้ หากคุณมีข้อกังวลด้านสุขภาพ กรุณาปรึกษาแพทย์โดยตรงนะคะ/ครับ"

/-- The canned empty-retrieval answer (lines 141 and 150). -/
def noInfoAnswer : String :=
  "ขออภัยค่ะ/ครับ ดิฉันไม่พบข้อมูลที่เกี่ยวข้องโดยตรงกับคำถามของคุณในฐานข้อมูล ณ ขณะนี้"

/-- The canned unhelpful-generation answer (line 143). -/
def insufficientAnswer : String :=
  "ข้อมูลที่มีอยู่อาจไม่เพียงพอที่จะให้คำตอบที่ชัดเจนสำหรับคำถามนี้ค่ะ/ครับ"

/-- One `context_parts` line: `f"- {metadata.get('title', 'ข้อมูลอ้างอิง')}: {doc}"`. -/
def contextLine (d : RetrievedDoc) : String :=
  "- " ++ d.title.getD "ข้อมูลอ้างอิง" ++ ": " ++ d.document

/-- One `sources` entry (lines 84-88). -/
def sourceOf (d : RetrievedDoc) : Source :=
  ⟨d.title.getD "Unknown title", d.url.getD "#", d.summary.getD "No summary available"⟩

/-- One chat-history line: role label plus content (lines 119-121). -/
def turnLine (m : ChatTurn) : String :=
  (if m.role = "user" then "ผู้ใช้" else "ผู้ช่วย AI") ++ ": " ++ m.content

/-- The `formatted_chat_history` block (lines 116-122): empty for an empty history,
else the header line and one role-labelled line per turn, joined with the
literal `"\\n"` separator and closed with `"\\n\\n"`.  Every turn of the
argument appears — the query path itself performs no truncation. -/
def formatHistory (chat_history : List ChatTurn) : String :=
  if chat_history.isEmpty then ""
  else
    String.intercalate "\\n"
      ("ประวัติการสนทนาก่อนหน้า:" :: chat_history.map turnLine) ++ "\\n\\n"

/-- The reference-context block of the second prompt part (line 127). -/
def contextBlock (retrieved : List RetrievedDoc) : String :=
  "เนื้อหาอ้างอิงจากกระทู้ถามแพทย์ (สำหรับคำถามปัจจุบัน):\\n" ++
    (if String.intercalate "\\n" (retrieved.map contextLine) = "" then
      "ไม่พบข้อมูลอ้างอิงที่เกี่ยวข้องโดยตรงสำหรับคำถามนี้"
    else String.intercalate "\\n" (retrieved.map contextLine))

/-- The prompt sent to the generation service (lines 124-130): the three
`prompt_parts` joined with the literal `"\\n\\n"` separator. -/
def buildPrompt (retrieved : List RetrievedDoc) (query : String)
    (chat_history : List ChatTurn) : String :=
  "System: " ++ systemPrompt ++ "\\n\\n" ++
    (formatHistory chat_history ++ contextBlock retrieved) ++ "\\n\\n" ++
    ("\\nคำถามปัจจุบันของผู้ใช้:\n" ++ query)

/-- Python `query_rag_system` (lines 64-156) given the records retrieved for the
query: builds the prompt, invokes generation exactly once, strips every
literal copy of the disclaimer from the raw answer, substitutes a canned
fallback when the stripped text is empty or is the bare disclaimer, appends
exactly one disclaimer, and on empty retrieval overrides the answer with the canned
no-information text and clears the sources. -/
def query_rag_system (retrieved : List RetrievedDoc) (gen : String → String)
    (query : String) (chat_history : List ChatTurn) : QueryOutcome :=
  let prompt := buildPrompt retrieved query chat_history
  let answer_raw := gen prompt
  let stripped := pyStripS (pyRemoveAll disclaimer answer_raw)
  let processed_answer :=
    if stripped = "" ∨ stripped = pyStripS disclaimer then
      if retrieved.isEmpty then noInfoAnswer else insufficientAnswer
    else stripped
  if retrieved.isEmpty then
    { answer := noInfoAnswer ++ "\\n\\n" ++ disclaimer
      sources := []
      genInvoked := true }
  else
    { answer := processed_answer ++ "\\n\\n" ++ disclaimer
      sources := retrieved.map sourceOf
      genInvoked := true }


/-! ### C1 — empty-store behaviour -/

/-- C1 (counterexample): with zero retrieved records the generation service
IS invoked — `llm.invoke` (line 134) runs unconditionally before the
empty-retrieval override (lines 148-151) — refuting "the text-generation
service is never invoked". -/
theorem query_empty_store_gen_invoked :
    (query_rag_system [] (fun _ => "คำตอบ") "ปวดหัว" []).genInvoked = true := rfl

/-- C1 (amended): with zero stored records the query result has empty
sources and the fixed canned no-relevant-information answer (closed by the
disclaimer), but the generation service is still invoked once. -/
theorem query_empty_store_behavior (gen : String → String) (q : String)
    (hist : List ChatTurn) :
    (query_rag_system [] gen q hist).sources = [] ∧
    (query_rag_system [] gen q hist).answer =
      noInfoAnswer ++ "\\n\\n" ++ disclaimer ∧
    (query_rag_system [] gen q hist).genInvoked = true :=
  ⟨rfl, rfl, rfl⟩

/-! ### C2 — disclaimer multiplicity -/

theorem disclaimer_ne_nil : disclaimer.data ≠ [] := by decide

theorem disclaimer_head_ne_bs : disclaimer.data.head? ≠ some '\\' := by decide

theorem disclaimer_head_ne_n : disclaimer.data.head? ≠ some 'n' := by decide

theorem disclaimer_no_bs : '\\' ∉ disclaimer.data := by decide

theorem countOcc_noInfo : countOcc disclaimer.data noInfoAnswer.data = 0 := by decide

theorem countOcc_insufficient :
    countOcc disclaimer.data insufficientAnswer.data = 0 := by decide

/-- A final answer `P ++ "\\n\\n" ++ disclaimer` contains exactly one copy of
the disclaimer when `P` contains none: the literal backslash-`n` separator
acts as a barrier (the disclaimer contains no backslash and starts with a
Thai letter). -/
theorem countOcc_final_answer {P : String}
    (hP : countOcc disclaimer.data P.data = 0) :
    countOcc disclaimer.data ((P ++ "\\n\\n" ++ disclaimer).data) = 1 := by
  have hdata : ((P ++ "\\n\\n" ++ disclaimer).data) =
      P.data ++ ('\\' :: 'n' :: '\\' :: 'n' :: disclaimer.data) := by
    rw [String.data_append, String.data_append, List.append_assoc]
    rfl
  rw [hdata]
  exact countOcc_block disclaimer_ne_nil disclaimer_head_ne_bs
    disclaimer_head_ne_n disclaimer_no_bs hP

/-- An adversarial generation response: deleting the embedded literal copy of
the disclaimer stitches the flanks into a fresh copy, which
`answer_raw.replace(disclaimer_text, "")` does not see. -/
def advRaw : String :=
  "x " ++ String.mk (disclaimer.data.take 1) ++ disclaimer ++
    String.mk (disclaimer.data.drop 1)

/-- A record standing for one retrieved forum chunk. -/
def sampleDoc : RetrievedDoc :=
  { document := "เนื้อหากระทู้", title := some "หัวข้อกระทู้",
    url := some "https://example.com/forums/1", summary := some "สรุปกระทู้" }

/-- C2 (counterexample): a non-empty raw generation response containing
exactly one literal copy of the disclaimer for which the final answer
contains TWO copies, refuting "the final answer contains exactly one copy".
-/
theorem disclaimer_once_cex :
    advRaw ≠ "" ∧
    countOcc disclaimer.data advRaw.data = 1 ∧
    countOcc disclaimer.data
      ((query_rag_system [sampleDoc] (fun _ => advRaw) "คำถาม" []).answer.data)
      = 2 := by
  refine ⟨by decide, by decide, by decide⟩

/-- C2 (amended): for every non-empty raw generation response, if deleting
the literal copies of the disclaimer leaves a text with no occurrence of the
disclaimer (true of every response where copies do not overlap the
surrounding text), then the final answer contains exactly one copy. -/
theorem disclaimer_once_amended (retrieved : List RetrievedDoc)
    (gen : String → String) (q : String) (hist : List ChatTurn)
    (_hraw : gen (buildPrompt retrieved q hist) ≠ "")
    (hclean : countOcc disclaimer.data
      ((pyRemoveAll disclaimer (gen (buildPrompt retrieved q hist))).data) = 0) :
    countOcc disclaimer.data
      ((query_rag_system retrieved gen q hist).answer.data) = 1 := by
  by_cases hr : retrieved.isEmpty
  · have ha : (query_rag_system retrieved gen q hist).answer =
        noInfoAnswer ++ "\\n\\n" ++ disclaimer := by
      simp [query_rag_system, hr]
    rw [ha]
    exact countOcc_final_answer countOcc_noInfo
  · by_cases hcond : pyStripS (pyRemoveAll disclaimer (gen (buildPrompt retrieved q hist))) = "" ∨
        pyStripS (pyRemoveAll disclaimer (gen (buildPrompt retrieved q hist))) = pyStripS disclaimer
    · have ha : (query_rag_system retrieved gen q hist).answer =
          insufficientAnswer ++ "\\n\\n" ++ disclaimer := by
        simp [query_rag_system, hr, hcond]
      rw [ha]
      exact countOcc_final_answer countOcc_insufficient
    · have ha : (query_rag_system retrieved gen q hist).answer =
          pyStripS (pyRemoveAll disclaimer (gen (buildPrompt retrieved q hist))) ++
            "\\n\\n" ++ disclaimer := by
        simp [query_rag_system, hr, hcond]
      rw [ha]
      apply countOcc_final_answer
      exact countOcc_eq_zero_of_within disclaimer_ne_nil (pyStrip_within _) hclean

/-- C2 amended witness. -/
theorem disclaimer_once_amended_witness :
    countOcc disclaimer.data
      ((query_rag_system [] (fun _ => "สวัสดีครับ") "ก" []).answer.data) = 1 :=
  disclaimer_once_amended [] (fun _ => "สวัสดีครับ") "ก" [] (by decide) (by decide)

/-! ### C9 — chat-history truncation -/

theorem intercalate_go_acc_within (s : String) :
    ∀ (as : List String) (acc : String),
      acc.data <:+: (String.intercalate.go acc s as).data := by
  intro as
  induction as with
  | nil => intro acc; exact List.infix_rfl
  | cons a as ih =>
    intro acc
    have hstep : String.intercalate.go acc s (a :: as) =
        String.intercalate.go (acc ++ s ++ a) s as := rfl
    rw [hstep]
    refine List.IsInfix.trans ?_ (ih (acc ++ s ++ a))
    rw [String.data_append, String.data_append, List.append_assoc]
    exact (List.prefix_append _ _).isInfix

theorem intercalate_go_mem_within (s : String) :
    ∀ (as : List String) (acc x : String), x ∈ as →
      x.data <:+: (String.intercalate.go acc s as).data := by
  intro as
  induction as with
  | nil => intro acc x hx; cases hx
  | cons a as ih =>
    intro acc x hx
    have hstep : String.intercalate.go acc s (a :: as) =
        String.intercalate.go (acc ++ s ++ a) s as := rfl
    rw [hstep]
    rcases List.mem_cons.mp hx with rfl | hmem
    · refine List.IsInfix.trans ?_ (intercalate_go_acc_within s as (acc ++ s ++ x))
      rw [String.data_append]
      exact (List.suffix_append _ _).isInfix
    · exact ih (acc ++ s ++ a) x hmem

theorem mem_intercalate_within (s : String) (L : List String) (x : String)
    (hx : x ∈ L) : x.data <:+: (String.intercalate s L).data := by
  cases L with
  | nil => cases hx
  | cons a as =>
    have hdef : String.intercalate s (a :: as) = String.intercalate.go a s as := rfl
    rw [hdef]
    rcases List.mem_cons.mp hx with rfl | hmem
    · exact intercalate_go_acc_within s as x
    · exact intercalate_go_mem_within s as a x hmem

/-- The `chat_history_for_rag` list as assembled by the display layer
(src/app.py lines 100-105): drop the current query message, keep the last
four remaining messages. -/
def chat_history_for_rag (messages : List ChatTurn) : List ChatTurn :=
  (messages.dropLast).drop ((messages.dropLast).length - 4)

/-- A five-turn chat history. -/
def histFive : List ChatTurn :=
  [⟨"user", "ปวดหัวตุบๆ"⟩, ⟨"assistant", "พักผ่อนนะคะ"⟩, ⟨"user", "กินยาอะไรดี"⟩,
    ⟨"assistant", "พาราเซตามอลค่ะ"⟩, ⟨"user", "กี่เม็ดคะ"⟩]

/-- Any turn of the history handed to `query_rag_system` appears in the
prompt it sends to generation, as its role-labelled line. -/
theorem turnLine_infix_prompt (r : List RetrievedDoc) (q : String)
    (hist : List ChatTurn) (t : ChatTurn) (ht : t ∈ hist) :
    (turnLine t).data <:+: (buildPrompt r q hist).data := by
  have hne : ¬ hist.isEmpty := by
    rcases hist with _ | ⟨a, hs⟩
    · cases ht
    · simp
  have h1 : (turnLine t).data <:+: (formatHistory hist).data := by
    rw [formatHistory, if_neg hne]
    have hmem : turnLine t ∈ "ประวัติการสนทนาก่อนหน้า:" :: hist.map turnLine :=
      List.mem_cons_of_mem _ (List.mem_map_of_mem turnLine ht)
    refine List.IsInfix.trans (mem_intercalate_within "\\n" _ _ hmem) ?_
    rw [String.data_append]
    exact (List.prefix_append _ _).isInfix
  refine h1.trans ?_
  unfold buildPrompt
  simp only [String.data_append]
  refine ⟨"System: ".data ++ systemPrompt.data ++ "\\n\\n".data,
    (contextBlock r).data ++
      ("\\n\\n".data ++ ("\\nคำถามปัจจุบันของผู้ใช้:\n".data ++ q.data)), ?_⟩
  simp [List.append_assoc]

/-- C9 (counterexample): pass a five-turn history to the query operation;
the prompt it sends to generation contains the role-labelled line of the
FIRST turn too — `query_rag_system` formats every turn of its argument, so
"earlier turns are excluded" fails for the history passed to the query
operation (the last-4 truncation lives in the display layer, not here). -/
theorem query_history_no_truncation :
    histFive.length = 5 ∧
    (turnLine ⟨"user", "ปวดหัวตุบๆ"⟩).data <:+:
      (buildPrompt [] "มีไข้ด้วย" histFive).data :=
  ⟨rfl, turnLine_infix_prompt [] "มีไข้ด้วย" histFive _ (by decide)⟩

/-- C9 (amended): the prompt contains every turn of the history passed to
`query_rag_system` as a role-labelled line (the query operation truncates
nothing); the caller `render_chat` passes exactly the last
`min(4, number of prior session turns)` turns, so the truncation is a
property of the composed app, not of the query operation. -/
theorem query_history_amended :
    (∀ (retrieved : List RetrievedDoc) (q : String) (hist : List ChatTurn)
        (t : ChatTurn), t ∈ hist →
        (turnLine t).data <:+: (buildPrompt retrieved q hist).data) ∧
    (∀ messages : List ChatTurn,
        chat_history_for_rag messages =
          (messages.dropLast).drop
            ((messages.dropLast).length - min 4 (messages.dropLast).length)) := by
  constructor
  · exact turnLine_infix_prompt
  · intro messages
    unfold chat_history_for_rag
    congr 1
    rcases Nat.le_total 4 (messages.dropLast).length with h | h
    · rw [Nat.min_eq_left h]
    · rw [Nat.min_eq_right h]
      omega

/-- C9 amended witness. -/
theorem query_history_amended_witness :
    (turnLine ⟨"user", "ก"⟩).data <:+:
        (buildPrompt [] "ข" [⟨"user", "ก"⟩]).data ∧
    chat_history_for_rag histFive =
      (histFive.dropLast).drop
        ((histFive.dropLast).length - min 4 (histFive.dropLast).length) :=
  ⟨query_history_amended.1 [] "ข" [⟨"user", "ก"⟩] ⟨"user", "ก"⟩ (by decide),
    query_history_amended.2 histFive⟩


/-! ## Crawl orchestrator (`crawl_website`, src/crawl/crawler.py lines 238-275)

The fetcher (`fetch_url`), text extractor (`extract_text_from_html`) and link
extractor (`extract_links_from_html`) reach the loop only through their
results, so they enter as function parameters `fetch`, `eT`, `eL`.  Python's
`set.pop` returns an arbitrary element; the embedding pops the head of the
queue — every claim proved below is order-independent, as §9 of the spec
requires.  The `await asyncio.sleep(1)` politeness delay has no observable
effect on the state and is not modelled. -/

/-- The orchestrator-owned frontier and result counters. -/
structure CrawlState where
  visited : List String
  queued : List String
  stored : List String
  count : Nat
deriving DecidableEq

/-- Python `for link in new_links: if link not in visited_urls: queued_urls.add(link)`
(lines 267-269): set-add keeps the queue duplicate-free. -/
def enqueueLinks (visited : List String) (links : List String)
    (queued : List String) : List String :=
  links.foldl (fun q l => if l ∈ visited ∨ l ∈ q then q else q ++ [l]) queued

/-- The body of one visit of an unvisited URL `u` (lines 253-269): mark
visited; on fetch failure or falsy (empty) body do nothing else; otherwise
extract text, and when it exceeds 500 characters store the page and bump the
counter; finally extract links and enqueue the unvisited ones. -/
def crawlVisit (fetch : String → Option String) (eT : String → String)
    (eL : String → String → List String) (u : String) (rest : List String)
    (s : CrawlState) : CrawlState :=
  match fetch u with
  | none => ⟨u :: s.visited, rest, s.stored, s.count⟩
  | some html =>
    if html = "" then ⟨u :: s.visited, rest, s.stored, s.count⟩
    else
      ⟨u :: s.visited,
        enqueueLinks (u :: s.visited) (eL html u) rest,
        if 500 < (eT html).length then u :: s.stored else s.stored,
        if 500 < (eT html).length then s.count + 1 else s.count⟩

/-- The crawl loop (`while queued_urls and len(visited_urls) < max_pages`,
lines 246-272), fuel-indexed; the claim C4 theorem shows the result is
fuel-independent once the fuel is large enough, i.e. the unbounded Python
loop terminates. -/
def crawl_loop (fetch : String → Option String) (eT : String → String)
    (eL : String → String → List String) (max_pages : Nat) :
    Nat → CrawlState → CrawlState
  | 0, s => s
  | fuel + 1, s =>
    match s.queued with
    | [] => s
    | u :: rest =>
      if max_pages ≤ s.visited.length then s
      else if u ∈ s.visited then
        crawl_loop fetch eT eL max_pages fuel ⟨s.visited, rest, s.stored, s.count⟩
      else crawl_loop fetch eT eL max_pages fuel (crawlVisit fetch eT eL u rest s)

/-- The initial frontier: `visited_urls = set()`, `queued_urls = {start_url}`,
`processed_count = 0`. -/
def initState (start_url : String) : CrawlState := ⟨[], [start_url], [], 0⟩

/-- Python `crawl_website(collection, start_url, max_pages=100)`: the final crawl
state; its `.count` field is the function's return value
(`processed_count`). -/
def crawl_website (fetch : String → Option String) (eT : String → String)
    (eL : String → String → List String) (start_url : String)
    (max_pages : Nat) (fuel : Nat) : CrawlState :=
  crawl_loop fetch eT eL max_pages fuel (initState start_url)

theorem crawl_loop_succ_cons (fetch : String → Option String)
    (eT : String → String) (eL : String → String → List String) (N fuel : Nat)
    (s : CrawlState) (u : String) (rest : List String) (h : s.queued = u :: rest) :
    crawl_loop fetch eT eL N (fuel + 1) s =
      if N ≤ s.visited.length then s
      else if u ∈ s.visited then
        crawl_loop fetch eT eL N fuel ⟨s.visited, rest, s.stored, s.count⟩
      else crawl_loop fetch eT eL N fuel (crawlVisit fetch eT eL u rest s) := by
  rcases s with ⟨v, q, st, c⟩
  simp only at h
  subst h
  rfl

theorem crawlVisit_visited (fetch : String → Option String) (eT : String → String)
    (eL : String → String → List String) (u : String) (rest : List String)
    (s : CrawlState) :
    (crawlVisit fetch eT eL u rest s).visited = u :: s.visited := by
  unfold crawlVisit
  rcases fetch u with _ | html
  · rfl
  · by_cases h : html = ""
    · simp [h]
    · simp [h]

theorem crawl_loop_nil_queue (fetch : String → Option String) (eT : String → String)
    (eL : String → String → List String) (N : Nat) :
    ∀ (fuel : Nat) (s : CrawlState), s.queued = [] →
      crawl_loop fetch eT eL N fuel s = s := by
  intro fuel s hq
  cases fuel with
  | zero => rfl
  | succ n =>
    rcases s with ⟨v, q, st, c⟩
    simp only at hq
    subst hq
    rfl

theorem crawl_loop_capped (fetch : String → Option String) (eT : String → String)
    (eL : String → String → List String) (N : Nat) :
    ∀ (fuel : Nat) (s : CrawlState), N ≤ s.visited.length →
      crawl_loop fetch eT eL N fuel s = s := by
  intro fuel s hcap
  cases fuel with
  | zero => rfl
  | succ n =>
    rcases hq : s.queued with _ | ⟨u, rest⟩
    · exact crawl_loop_nil_queue fetch eT eL N (n + 1) s hq
    · rw [crawl_loop_succ_cons fetch eT eL N n s u rest hq, if_pos hcap]

theorem crawl_loop_visited_le (fetch : String → Option String)
    (eT : String → String) (eL : String → String → List String) (N : Nat) :
    ∀ (fuel : Nat) (s : CrawlState), s.visited.length ≤ N →
      (crawl_loop fetch eT eL N fuel s).visited.length ≤ N := by
  intro fuel
  induction fuel with
  | zero => intro s h; exact h
  | succ n ih =>
    intro s h
    rcases hq : s.queued with _ | ⟨u, rest⟩
    · rw [crawl_loop_nil_queue fetch eT eL N (n + 1) s hq]; exact h
    · rw [crawl_loop_succ_cons fetch eT eL N n s u rest hq]
      by_cases hcap : N ≤ s.visited.length
      · rw [if_pos hcap]; exact h
      · rw [if_neg hcap]
        by_cases hu : u ∈ s.visited
        · rw [if_pos hu]
          exact ih _ h
        · rw [if_neg hu]
          apply ih
          rw [crawlVisit_visited]
          simp only [List.length_cons]
          omega

theorem crawl_loop_visited_nodup (fetch : String → Option String)
    (eT : String → String) (eL : String → String → List String) (N : Nat) :
    ∀ (fuel : Nat) (s : CrawlState), s.visited.Nodup →
      (crawl_loop fetch eT eL N fuel s).visited.Nodup := by
  intro fuel
  induction fuel with
  | zero => intro s h; exact h
  | succ n ih =>
    intro s h
    rcases hq : s.queued with _ | ⟨u, rest⟩
    · rw [crawl_loop_nil_queue fetch eT eL N (n + 1) s hq]; exact h
    · rw [crawl_loop_succ_cons fetch eT eL N n s u rest hq]
      by_cases hcap : N ≤ s.visited.length
      · rw [if_pos hcap]; exact h
      · rw [if_neg hcap]
        by_cases hu : u ∈ s.visited
        · rw [if_pos hu]
          exact ih _ h
        · rw [if_neg hu]
          apply ih
          rw [crawlVisit_visited]
          exact List.Nodup.cons hu h

theorem crawl_loop_halts (fetch : String → Option String) (eT : String → String)
    (eL : String → String → List String) (N : Nat) :
    ∀ (s : CrawlState), ∃ F, 1 ≤ F ∧
      (∀ f, F ≤ f → crawl_loop fetch eT eL N f s = crawl_loop fetch eT eL N F s) ∧
      ((crawl_loop fetch eT eL N F s).queued = [] ∨
        N ≤ (crawl_loop fetch eT eL N F s).visited.length) := by
  suffices hmain : ∀ (k m : Nat) (s : CrawlState), N - s.visited.length ≤ k →
      s.queued.length ≤ m → ∃ F, 1 ≤ F ∧
      (∀ f, F ≤ f → crawl_loop fetch eT eL N f s = crawl_loop fetch eT eL N F s) ∧
      ((crawl_loop fetch eT eL N F s).queued = [] ∨
        N ≤ (crawl_loop fetch eT eL N F s).visited.length) by
    intro s
    exact hmain (N - s.visited.length) s.queued.length s le_rfl le_rfl
  intro k
  induction k with
  | zero =>
    intro m s hk _
    have hcap : N ≤ s.visited.length := by omega
    refine ⟨1, le_rfl, ?_, ?_⟩
    · intro f _
      rw [crawl_loop_capped fetch eT eL N f s hcap,
        crawl_loop_capped fetch eT eL N 1 s hcap]
    · rw [crawl_loop_capped fetch eT eL N 1 s hcap]
      exact Or.inr hcap
  | succ k ihk =>
    intro m
    induction m with
    | zero =>
      intro s _ hm
      have hq : s.queued = [] := List.length_eq_zero.mp (Nat.le_zero.mp hm)
      refine ⟨1, le_rfl, ?_, ?_⟩
      · intro f _
        rw [crawl_loop_nil_queue fetch eT eL N f s hq,
          crawl_loop_nil_queue fetch eT eL N 1 s hq]
      · rw [crawl_loop_nil_queue fetch eT eL N 1 s hq]
        exact Or.inl hq
    | succ m ihm =>
      intro s hk hm
      rcases hq : s.queued with _ | ⟨u, rest⟩
      · refine ⟨1, le_rfl, ?_, ?_⟩
        · intro f _
          rw [crawl_loop_nil_queue fetch eT eL N f s hq,
            crawl_loop_nil_queue fetch eT eL N 1 s hq]
        · rw [crawl_loop_nil_queue fetch eT eL N 1 s hq]
          exact Or.inl hq
      · by_cases hcap : N ≤ s.visited.length
        · refine ⟨1, le_rfl, ?_, ?_⟩
          · intro f _
            rw [crawl_loop_capped fetch eT eL N f s hcap,
              crawl_loop_capped fetch eT eL N 1 s hcap]
          · rw [crawl_loop_capped fetch eT eL N 1 s hcap]
            exact Or.inr hcap
        · by_cases hu : u ∈ s.visited
          · set s1 : CrawlState := ⟨s.visited, rest, s.stored, s.count⟩ with hs1
            have hstep : ∀ f, crawl_loop fetch eT eL N (f + 1) s =
                crawl_loop fetch eT eL N f s1 := by
              intro f
              rw [crawl_loop_succ_cons fetch eT eL N f s u rest hq,
                if_neg hcap, if_pos hu]
            have hk1 : N - s1.visited.length ≤ k + 1 := hk
            have hm1 : s1.queued.length ≤ m := by
              have := congrArg List.length hq
              simp at this
              simp [hs1]
              omega
            obtain ⟨F, hF1, hFst, hFh⟩ := ihm s1 hk1 hm1
            refine ⟨F + 1, by omega, ?_, ?_⟩
            · intro f hf
              rcases f with _ | f
              · omega
              · rw [hstep f, hstep F, hFst f (by omega)]
            · rw [hstep F]
              exact hFh
          · set s2 := crawlVisit fetch eT eL u rest s with hs2
            have hstep : ∀ f, crawl_loop fetch eT eL N (f + 1) s =
                crawl_loop fetch eT eL N f s2 := by
              intro f
              rw [crawl_loop_succ_cons fetch eT eL N f s u rest hq,
                if_neg hcap, if_neg hu]
            have hk2 : N - s2.visited.length ≤ k := by
              rw [hs2, crawlVisit_visited]
              simp only [List.length_cons]
              omega
            obtain ⟨F, hF1, hFst, hFh⟩ := ihk s2.queued.length s2 hk2 le_rfl
            refine ⟨F + 1, by omega, ?_, ?_⟩
            · intro f hf
              rcases f with _ | f
              · omega
              · rw [hstep f, hstep F, hFst f (by omega)]
            · rw [hstep F]
              exact hFh

/-- C4: for every fetcher/extractor behaviour (hence every link graph,
cyclic ones included), every seed and every page cap `N`: the crawl never
visits more than `N` URLs, the visited set stays duplicate-free, and the
loop terminates — its result is fuel-independent beyond some bound `F`, and
at that point the queue is exhausted or the cap is reached. -/
theorem crawl_website_terminates (fetch : String → Option String)
    (eT : String → String) (eL : String → String → List String)
    (start_url : String) (N : Nat) :
    (∀ fuel, (crawl_website fetch eT eL start_url N fuel).visited.length ≤ N ∧
      (crawl_website fetch eT eL start_url N fuel).visited.Nodup) ∧
    ∃ F, (∀ f, F ≤ f → crawl_website fetch eT eL start_url N f =
        crawl_website fetch eT eL start_url N F) ∧
      ((crawl_website fetch eT eL start_url N F).queued = [] ∨
        N ≤ (crawl_website fetch eT eL start_url N F).visited.length) := by
  constructor
  · intro fuel
    constructor
    · exact crawl_loop_visited_le fetch eT eL N fuel (initState start_url)
        (by simp [initState])
    · exact crawl_loop_visited_nodup fetch eT eL N fuel (initState start_url)
        (by simp [initState])
  · obtain ⟨F, _, hst, hh⟩ := crawl_loop_halts fetch eT eL N (initState start_url)
    exact ⟨F, fun f hf => hst f hf, hh⟩

/-- C4 witness (a two-page cyclic site: the seed and `b` link to each other). -/
theorem crawl_website_terminates_witness :
    ∃ F, crawl_website (fun _ => some "<p>")
        (fun _ => "x") (fun _ _ => ["a", "b"]) "a" 2 (F + 1) =
      crawl_website (fun _ => some "<p>")
        (fun _ => "x") (fun _ _ => ["a", "b"]) "a" 2 F := by
  obtain ⟨F, hst, _⟩ :=
    (crawl_website_terminates (fun _ => some "<p>") (fun _ => "x")
      (fun _ _ => ["a", "b"]) "a" 2).2
  exact ⟨F, hst (F + 1) (by omega)⟩


/-- The page-storing condition of C8: the fetch succeeded and the extracted
text is longer than 500 characters. -/
def storeCond (fetch : String → Option String) (eT : String → String)
    (u : String) : Prop :=
  ∃ h, fetch u = some h ∧ 500 < (eT h).length

/-- The C8 invariant: the counter equals the number of stored pages, and a
URL is stored exactly when it was visited, fetched successfully and its
extracted text exceeded 500 characters. -/
def CrawlInv (fetch : String → Option String) (eT : String → String)
    (s : CrawlState) : Prop :=
  s.count = s.stored.length ∧
    ∀ u, u ∈ s.stored ↔ (u ∈ s.visited ∧ storeCond fetch eT u)

theorem crawlVisit_inv (fetch : String → Option String) (eT : String → String)
    (eL : String → String → List String) (hε : ¬ 500 < (eT "").length)
    (u : String) (rest : List String) (s : CrawlState)
    (hinv : CrawlInv fetch eT s) :
    CrawlInv fetch eT (crawlVisit fetch eT eL u rest s) := by
  obtain ⟨hc, hiff⟩ := hinv
  unfold crawlVisit
  rcases hf : fetch u with _ | html
  · dsimp only
    refine ⟨hc, fun w => ?_⟩
    rw [hiff w]
    constructor
    · rintro ⟨hv, hsc⟩
      exact ⟨List.mem_cons_of_mem u hv, hsc⟩
    · rintro ⟨hv, hsc⟩
      rcases List.mem_cons.mp hv with rfl | hv'
      · obtain ⟨h, hh, _⟩ := hsc
        rw [hf] at hh
        cases hh
      · exact ⟨hv', hsc⟩
  · dsimp only
    by_cases hhe : html = ""
    · rw [if_pos hhe]
      refine ⟨hc, fun w => ?_⟩
      rw [hiff w]
      constructor
      · rintro ⟨hv, hsc⟩
        exact ⟨List.mem_cons_of_mem u hv, hsc⟩
      · rintro ⟨hv, hsc⟩
        rcases List.mem_cons.mp hv with rfl | hv'
        · obtain ⟨h, hh, hlen⟩ := hsc
          rw [hf] at hh
          cases hh
          rw [hhe] at hlen
          exact absurd hlen hε
        · exact ⟨hv', hsc⟩
    · rw [if_neg hhe]
      by_cases hhit : 500 < (eT html).length
      · simp only [if_pos hhit]
        refine ⟨by simp [hc], fun w => ?_⟩
        constructor
        · intro hw
          rcases List.mem_cons.mp hw with rfl | hw'
          · exact ⟨List.mem_cons_self w s.visited, html, hf, hhit⟩
          · obtain ⟨hv, hsc⟩ := (hiff w).mp hw'
            exact ⟨List.mem_cons_of_mem u hv, hsc⟩
        · rintro ⟨hv, hsc⟩
          rcases List.mem_cons.mp hv with rfl | hv'
          · exact List.mem_cons_self w s.stored
          · exact List.mem_cons_of_mem u ((hiff w).mpr ⟨hv', hsc⟩)
      · simp only [if_neg hhit]
        refine ⟨hc, fun w => ?_⟩
        rw [hiff w]
        constructor
        · rintro ⟨hv, hsc⟩
          exact ⟨List.mem_cons_of_mem u hv, hsc⟩
        · rintro ⟨hv, hsc⟩
          rcases List.mem_cons.mp hv with rfl | hv'
          · obtain ⟨h, hh, hlen⟩ := hsc
            rw [hf] at hh
            cases hh
            exact absurd hlen hhit
          · exact ⟨hv', hsc⟩

theorem crawl_loop_inv (fetch : String → Option String) (eT : String → String)
    (eL : String → String → List String) (N : Nat)
    (hε : ¬ 500 < (eT "").length) :
    ∀ (fuel : Nat) (s : CrawlState), CrawlInv fetch eT s →
      CrawlInv fetch eT (crawl_loop fetch eT eL N fuel s) := by
  intro fuel
  induction fuel with
  | zero => intro s h; exact h
  | succ n ih =>
    intro s h
    rcases hq : s.queued with _ | ⟨u, rest⟩
    · rw [crawl_loop_nil_queue fetch eT eL N (n + 1) s hq]; exact h
    · rw [crawl_loop_succ_cons fetch eT eL N n s u rest hq]
      by_cases hcap : N ≤ s.visited.length
      · rw [if_pos hcap]; exact h
      · rw [if_neg hcap]
        by_cases hu : u ∈ s.visited
        · rw [if_pos hu]
          exact ih _ h
        · rw [if_neg hu]
          exact ih _ (crawlVisit_inv fetch eT eL hε u rest s h)

/-- C8: the crawl counter (`processed_count`, the return value of
`crawl_website`) equals the number of pages whose content was run through
chunk/enrich/store, and a visited page is stored exactly when its fetch
succeeded and its extracted text is longer than 500 characters; every other
visited page consumes a visited slot without being indexed.  (Hypothesis:
the extractor yields at most 500 characters from an empty fetch body, as the
real `extract_text_from_html` trivially does.) -/
theorem crawl_website_stored_count (fetch : String → Option String)
    (eT : String → String) (eL : String → String → List String)
    (start_url : String) (N fuel : Nat) (hε : ¬ 500 < (eT "").length) :
    (crawl_website fetch eT eL start_url N fuel).count =
      (crawl_website fetch eT eL start_url N fuel).stored.length ∧
    ∀ u, u ∈ (crawl_website fetch eT eL start_url N fuel).stored ↔
      (u ∈ (crawl_website fetch eT eL start_url N fuel).visited ∧
        ∃ h, fetch u = some h ∧ 500 < (eT h).length) := by
  have hinit : CrawlInv fetch eT (initState start_url) := by
    refine ⟨rfl, fun u => ?_⟩
    simp [initState]
  exact crawl_loop_inv fetch eT eL N hε fuel (initState start_url) hinit

/-- C8 witness: a one-page site whose text is 501 characters long. -/
theorem crawl_website_stored_count_witness :
    (crawl_website (fun u => if u = "a" then some "B" else none)
        (fun h => if h = "B" then String.mk (List.replicate 501 'x') else "")
        (fun _ _ => []) "a" 2 3).count =
      (crawl_website (fun u => if u = "a" then some "B" else none)
        (fun h => if h = "B" then String.mk (List.replicate 501 'x') else "")
        (fun _ _ => []) "a" 2 3).stored.length :=
  (crawl_website_stored_count (fun u => if u = "a" then some "B" else none)
    (fun h => if h = "B" then String.mk (List.replicate 501 'x') else "")
    (fun _ _ => []) "a" 2 3 (by decide)).1

/-! ## Link extractor (`extract_links_from_html`, src/crawl/crawler.py
lines 222-235)

The HTML parser supplies the anchor `href` values, and `urllib`'s `urljoin` /
`urlparse(·).netloc` are the standard library's resolution and
host-extraction; all three are external collaborators and enter as
parameters `hrefs`, `resolve` and `netloc`.  The claims hold for every
choice of them. -/

/-- Python `extract_links_from_html(html, base_url)`: resolve every href against
the base URL, keep those on the same netloc, de-duplicate
(`list(set(links))`). -/
def extract_links_from_html (resolve : String → String → String)
    (netloc : String → String) (hrefs : List String) (base_url : String) :
    List String :=
  ((hrefs.map (fun href => resolve base_url href)).filter
    (fun full_url => netloc full_url == netloc base_url)).dedup

/-- The host part of a `netloc` (`[userinfo@]host[:port]`). -/
def hostOfNetloc (n : String) : String :=
  ((n.splitOn "@").getLastD "").takeWhile (fun c => c != ':')

/-- C5: for every HTML input (anchor list), base URL, resolver and netloc
function, every returned link has the same netloc — hence the same host —
as the base URL, and the returned list has no duplicates. -/
theorem extract_links_same_host (resolve : String → String → String)
    (netloc : String → String) (hrefs : List String) (base_url : String) :
    (extract_links_from_html resolve netloc hrefs base_url).Nodup ∧
    ∀ l ∈ extract_links_from_html resolve netloc hrefs base_url,
      netloc l = netloc base_url ∧
      hostOfNetloc (netloc l) = hostOfNetloc (netloc base_url) := by
  constructor
  · exact List.nodup_dedup _
  · intro l hl
    have hl2 := List.mem_dedup.mp hl
    have hp := List.of_mem_filter hl2
    have heq : netloc l = netloc base_url := by
      exact eq_of_beq hp
    exact ⟨heq, by rw [heq]⟩

/-- C5 witness (with a toy resolver and netloc function). -/
theorem extract_links_same_host_witness :
    (extract_links_from_html (fun b h => b ++ h)
        (fun u => String.mk (u.data.takeWhile (fun c => c != '/')))
        ["/x", "/x", "/y"] "example.com/").Nodup ∧
    (fun u : String => String.mk (u.data.takeWhile (fun c => c != '/')))
        "example.com//x" =
      (fun u : String => String.mk (u.data.takeWhile (fun c => c != '/')))
        "example.com/" :=
  ⟨(extract_links_same_host (fun b h => b ++ h)
      (fun u => String.mk (u.data.takeWhile (fun c => c != '/')))
      ["/x", "/x", "/y"] "example.com/").1,
    ((extract_links_same_host (fun b h => b ++ h)
      (fun u => String.mk (u.data.takeWhile (fun c => c != '/')))
      ["/x", "/x", "/y"] "example.com/").2 "example.com//x" (by decide)).1⟩


/-! ## Store writer (`insert_chunk`, src/crawl/crawler.py lines 153-177)

The chunk enricher (`process_chunk`) builds a `ProcessedChunk`; `insert_chunk`
writes it to the vector store under the composite id
`f"{chunk.url}_{chunk.chunk_number}"`.  The embedding type is abstract (the
claims never inspect the vector values). -/

/-- The `metadata` dictionary built by `process_chunk` (lines 135-140). -/
structure ChunkMetadata where
  source : String
  chunk_size : Nat
  crawled_at : String
  url_path : String
deriving DecidableEq

/-- The `ProcessedChunk` dataclass (src/crawl/crawler.py lines 29-38). -/
structure ProcessedChunk (α : Type) where
  url : String
  chunk_number : Nat
  title : String
  summary : String
  content : String
  metadata : ChunkMetadata
  embedding : α
deriving DecidableEq

/-- One stored record: the document, embedding and flattened metadata passed
to `collection.add` (lines 159-172). -/
structure StoredRecord (α : Type) where
  document : String
  embedding : α
  meta_url : String
  meta_chunk_number : Nat
  meta_title : String
  meta_summary : String
  metadata : ChunkMetadata
deriving DecidableEq

/-- Modelled from the spec: the vector store is an external collaborator —
"Persistent, string-keyed" with `add(ids, documents, embeddings, metadatas)`
(§6) and upsert semantics: "Upsert: insert-or-overwrite keyed write"
(glossary), "re-ingesting the same (URL, index) overwrites the prior record"
(§3).  `storeAdd` writes one record at the given id, overwriting any record
already stored under that id. -/
def storeAdd {α : Type} (s : List (String × StoredRecord α)) (key : String)
    (r : StoredRecord α) : List (String × StoredRecord α) :=
  if s.any (fun p => p.1 == key) then
    s.map (fun p => if p.1 == key then (key, r) else p)
  else s ++ [(key, r)]

/-- The record contents written by `collection.add` for one chunk. -/
def chunkRecord {α : Type} (c : ProcessedChunk α) : StoredRecord α :=
  ⟨c.content, c.embedding, c.url, c.chunk_number, c.title, c.summary, c.metadata⟩

/-- Python `insert_chunk(collection, chunk)`: one keyed write at the deterministic
composite id `f"{chunk.url}_{chunk.chunk_number}"`. -/
def insert_chunk {α : Type} (s : List (String × StoredRecord α))
    (chunk : ProcessedChunk α) : List (String × StoredRecord α) :=
  storeAdd s (chunk.url ++ "_" ++ toString chunk.chunk_number) (chunkRecord chunk)

theorem storeAdd_key_not_mem {α : Type} {s : List (String × StoredRecord α)}
    {key : String} (h : ¬ s.any (fun p => p.1 == key) = true) :
    key ∉ s.map Prod.fst := by
  intro hc
  apply h
  rw [List.any_eq_true]
  obtain ⟨p, hp, hpk⟩ := List.mem_map.mp hc
  exact ⟨p, hp, by simp [hpk]⟩

theorem storeAdd_keys {α : Type} (s : List (String × StoredRecord α))
    (key : String) (r : StoredRecord α) :
    (storeAdd s key r).map Prod.fst =
      if s.any (fun p => p.1 == key) then s.map Prod.fst
      else s.map Prod.fst ++ [key] := by
  unfold storeAdd
  by_cases h : s.any (fun p => p.1 == key)
  · rw [if_pos h, if_pos h, List.map_map]
    apply List.map_congr_left
    intro p _
    by_cases hk : (p.1 == key) = true
    · simp only [Function.comp_apply, if_pos hk]
      exact (eq_of_beq hk).symm
    · simp only [Function.comp_apply, if_neg hk]
  · rw [if_neg h, if_neg h, List.map_append]
    rfl

theorem storeAdd_idem {α : Type} (s : List (String × StoredRecord α))
    (key : String) (r : StoredRecord α) :
    storeAdd (storeAdd s key r) key r = storeAdd s key r := by
  unfold storeAdd
  by_cases h : s.any (fun p => p.1 == key)
  · rw [if_pos h]
    have hany : (s.map (fun p => if p.1 == key then (key, r) else p)).any
        (fun p => p.1 == key) = true := by
      rw [List.any_map, List.any_eq_true] at *
      obtain ⟨p, hp, hpk⟩ := h
      refine ⟨p, hp, ?_⟩
      simp [Function.comp, hpk]
    rw [if_pos hany, List.map_map]
    apply List.map_congr_left
    intro p _
    by_cases hk : (p.1 == key) = true
    · simp [Function.comp, hk]
    · simp [Function.comp, hk]
  · rw [if_neg h]
    have hany : ((s ++ [(key, r)]).any (fun p => p.1 == key)) = true := by
      rw [List.any_append]
      simp
    rw [if_pos hany]
    have hcong : ∀ p ∈ s, (if p.1 == key then (key, r) else p) = id p := by
      intro p hp
      have hk : ¬ (p.1 == key) = true := by
        intro hc
        exact h (List.any_eq_true.mpr ⟨p, hp, hc⟩)
      simp [hk]
    rw [List.map_append, List.map_congr_left hcong, List.map_id]
    simp

/-- C3: re-ingesting the same chunk writes the same composite id, overwrites
the prior record (the store after the second write equals the store after
the first), keeps the key set duplicate-free, and leaves exactly one record
under the chunk id. -/
theorem insert_chunk_idempotent {α : Type} (s : List (String × StoredRecord α))
    (c : ProcessedChunk α) :
    insert_chunk (insert_chunk s c) c = insert_chunk s c ∧
    ((s.map Prod.fst).Nodup → ((insert_chunk s c).map Prod.fst).Nodup) ∧
    ((s.map Prod.fst).Nodup →
      ((insert_chunk s c).map Prod.fst).count
        (c.url ++ "_" ++ toString c.chunk_number) = 1) := by
  refine ⟨storeAdd_idem s _ _, ?_, ?_⟩
  · intro hnd
    rw [insert_chunk, storeAdd_keys]
    by_cases h : s.any (fun p => p.1 == c.url ++ "_" ++ toString c.chunk_number)
    · rw [if_pos h]; exact hnd
    · rw [if_neg h]
      rw [List.nodup_append]
      exact ⟨hnd, List.nodup_singleton _,
        fun a ha hb => (List.mem_singleton.mp hb ▸ storeAdd_key_not_mem h) ha⟩
  · intro hnd
    rw [insert_chunk, storeAdd_keys]
    by_cases h : s.any (fun p => p.1 == c.url ++ "_" ++ toString c.chunk_number)
    · rw [if_pos h]
      have hmem : c.url ++ "_" ++ toString c.chunk_number ∈ s.map Prod.fst := by
        rw [List.any_eq_true] at h
        obtain ⟨p, hp, hpk⟩ := h
        exact eq_of_beq hpk ▸ List.mem_map_of_mem Prod.fst hp
      have hle := List.nodup_iff_count_le_one.mp hnd
        (c.url ++ "_" ++ toString c.chunk_number)
      have hge := List.count_pos_iff.mpr hmem
      omega
    · rw [if_neg h, List.count_append,
        List.count_eq_zero_of_not_mem (storeAdd_key_not_mem h)]
      simp

/-- A concrete processed chunk (embedding type `Nat`). -/
def sampleChunk : ProcessedChunk Nat :=
  ⟨"https://example.com/forums", 0, "หัวข้อ", "สรุป", "เนื้อหา",
    ⟨"example.com", 7, "2024-01-01T00:00:00+00:00", "/forums"⟩, 0⟩

/-- C3 witness. -/
theorem insert_chunk_idempotent_witness :
    insert_chunk (insert_chunk ([] : List (String × StoredRecord Nat)) sampleChunk)
        sampleChunk =
      insert_chunk ([] : List (String × StoredRecord Nat)) sampleChunk ∧
    ((insert_chunk ([] : List (String × StoredRecord Nat)) sampleChunk).map
        Prod.fst).count ("https://example.com/forums" ++ "_" ++ toString 0) = 1 :=
  ⟨(insert_chunk_idempotent [] sampleChunk).1,
    (insert_chunk_idempotent [] sampleChunk).2.2 (by decide)⟩

end Rag
